import Mathlib

/-!
Verification of the demand-forecast frontend (SCM repository).

This file shallowly embeds the parts of the frontend that the claims are
about:

* the weekly bucket deriver `coordinationSeries` of
  `src/frontend/src/pages/DemandForecasting.jsx` (lines 220-288), together
  with the `timelineData` memo and the render condition of the timeline
  chart section (line 774);
* the suggestion truncation in `SuggestionPanel` (lines 67-79) and in
  `downloadEntireForecastPDF` (line 387);
* the response handler of `handleForecast` (lines 408-451);
* the CSV text builder of `src/frontend/src/utils/exportUtils.js`
  (`exportToCSV`, lines 3-47);
* the business-profile persistence of `BusinessInfoContext`
  (`saveBusinessInfo` and the provider's `useState` initializer).

Dates are modelled as their JavaScript epoch-millisecond timestamps
(`new Date(x).getTime()`), numbers as rationals (the claims under
verification are exact clamping/averaging range facts that hold equally
for IEEE doubles on the clamped inputs), and absent or malformed nested
JSON fields as `Option.none` (the source reads them through
optional-chaining defaults such as `forecast.seasonal_demands?.chart || []`).
-/

namespace SCM

/-- `7 * 24 * 60 * 60 * 1000`: the bucket step of the weekly deriver, in
milliseconds. -/
def msPerWeek : Int := 604800000

/-- One entry of `forecast.seasonal_demands.chart` as the deriver reads it:
`{ start: new Date(s.start).getTime(), end: ..., surge: Number(s.demand_surge) || 0 }`.
The source's `end` field is called `stop` here (`end` is a Lean keyword);
`season` is the display name used by `timelineData`. -/
structure SeasonRow where
  season : String
  start : Int
  stop : Int
  surge : ℚ
deriving DecidableEq, Repr

/-- One entry of `forecast.festival_demands.chart` as read by the deriver
(`{ date: new Date(f.date).getTime(), inc: Number(f.demand_increase) || 0 }`)
and by the festival bar chart (`festival` label, `demand_increase`). -/
structure FestivalRow where
  festival : String
  date : Int
  inc : ℚ
deriving DecidableEq, Repr

/-- The forecast JSON fields the claims touch. `seasonal_chart` models
`forecast.seasonal_demands?.chart` (`none` when the nested field is missing
or malformed), likewise `festival_chart` and `suggestions`. -/
structure Forecast where
  forecast_start : Int
  forecast_end : Int
  seasonal_chart : Option (List SeasonRow)
  festival_chart : Option (List FestivalRow)
  suggestions : Option (List String)
deriving DecidableEq, Repr

/-- Number of iterations of the week-cursor loop
`while (cursor <= end) { weeks.push(cursor); cursor += 7d }`:
the largest `k` with `start + k * msPerWeek ≤ end` is
`(end - start) / msPerWeek`, so the loop pushes that many entries plus one.
`weekStarts_loop` below proves this closed form satisfies the loop's
defining equation. -/
def weekCount (s e : Int) : Nat :=
  if s ≤ e then (e - s).toNat / msPerWeek.toNat + 1 else 0

/-- The `weeks` array built by the deriver's cursor loop: bucket start
timestamps `start, start + 7d, start + 14d, ...` while `cursor ≤ end`
(also the chart labels, since `weekLabels = weeks.map(d => d)`). -/
def weekStarts (s e : Int) : List Int :=
  (List.range (weekCount s e)).map (fun k : Nat => s + (k : Int) * msPerWeek)

/-- `weekStarts` satisfies the defining equation of the source's `while`
loop, so it is exactly the list the loop builds. -/
theorem weekStarts_loop (s e : Int) :
    weekStarts s e = if s ≤ e then s :: weekStarts (s + msPerWeek) e else [] := by
  by_cases h : s ≤ e
  · rw [if_pos h]
    by_cases h2 : s + msPerWeek ≤ e
    · have hW : msPerWeek.toNat ≤ (e - s).toNat := by
        simp only [msPerWeek] at *; omega
      have hcount : weekCount s e = weekCount (s + msPerWeek) e + 1 := by
        simp only [weekCount, if_pos h, if_pos h2]
        rw [Nat.div_eq_sub_div (by norm_num [msPerWeek]) hW]
        have : (e - (s + msPerWeek)).toNat = (e - s).toNat - msPerWeek.toNat := by
          simp only [msPerWeek] at *; omega
        rw [this]

      rw [weekStarts, hcount, List.range_succ_eq_map, List.map_cons, List.map_map]
      refine congrArg₂ List.cons (by push_cast; ring) ?_
      rw [weekStarts]
      refine List.map_congr_left (fun k _ => ?_)
      simp only [Function.comp_apply]
      push_cast
      ring
    · have hx : (e - s).toNat < msPerWeek.toNat := by
        simp only [msPerWeek] at *; omega
      have hc1 : weekCount s e = 1 := by
        simp only [weekCount, if_pos h, Nat.div_eq_of_lt hx]
      have hc0 : weekCount (s + msPerWeek) e = 0 := by
        simp only [weekCount, if_neg h2]
      rw [weekStarts, weekStarts, hc1, hc0]
      simp [List.range_succ]
  · rw [if_neg h]
    simp [weekStarts, weekCount, if_neg h]

/-- The bucket starts are precisely the timestamps `start + k * 7d` that do
not pass `end`: the 7-day grid anchored at `forecast_start` spanning the
forecast window. -/
theorem mem_weekStarts {s e w : Int} (h : s ≤ e) :
    w ∈ weekStarts s e ↔ ∃ k : Nat, w = s + k * msPerWeek ∧ w ≤ e := by
  simp only [weekStarts, List.mem_map, List.mem_range, weekCount, if_pos h, msPerWeek]
  rw [show (604800000 : Int).toNat = 604800000 from rfl]
  constructor
  · rintro ⟨k, hk, rfl⟩
    exact ⟨k, rfl, by omega⟩
  · rintro ⟨k, rfl, hle⟩
    refine ⟨k, by omega, rfl⟩

/-- `Math.max(0, Math.min(100, v))`: the clamp applied to every bucket
value of both weekly series. -/
def clamp100 (v : ℚ) : ℚ := max 0 (min 100 v)

/-- One bucket's pre-smoothing seasonal value: the `for`-loop
`maxSurge = Math.max(maxSurge, s.surge)` over the season rows whose
interval overlaps the week `[w, w + 7d - 1]`
(`overlap = !(s.end < wStart || s.start > wEnd)`), started at `0` and
clamped. -/
def seasonValAt (seasons : List SeasonRow) (w : Int) : ℚ :=
  clamp100 (seasons.foldl
    (fun m s => if ¬(s.stop < w ∨ w + msPerWeek - 1 < s.start) then max m s.surge else m) 0)

/-- One bucket's raw festival value: the `for`-loop
`if (f.date >= wStart && f.date <= wEnd) sum += f.inc` over the festival
rows, started at `0` (clamping happens afterwards in `preSmoothFestVals`). -/
def festRawAt (festivals : List FestivalRow) (w : Int) : ℚ :=
  festivals.foldl
    (fun acc f => if w ≤ f.date ∧ f.date ≤ w + msPerWeek - 1 then acc + f.inc else acc) 0

/-- The values the inner `for (let j = i - half; j <= i + half; j++)` loop
of `smooth` accumulates at index `i`: with window 3 (the only window used)
`half = 1`, so the loop body runs for `j = i-1, i, i+1` and keeps `arr[j]`
when `0 ≤ j < arr.length`. The three iterations are unrolled. -/
def neighborVals (arr : List ℚ) (i : Nat) : List ℚ :=
  (if 0 ≤ (i : Int) - 1 ∧ (i : Int) - 1 < (arr.length : Int)
    then [arr.getD ((i : Int) - 1).toNat 0] else [])
  ++ (if 0 ≤ (i : Int) ∧ (i : Int) < (arr.length : Int)
    then [arr.getD ((i : Int)).toNat 0] else [])
  ++ (if 0 ≤ (i : Int) + 1 ∧ (i : Int) + 1 < (arr.length : Int)
    then [arr.getD ((i : Int) + 1).toNat 0] else [])

/-- The `smooth(arr, 3)` helper of the deriver: at each index the mean of
the in-range neighbors (with the source's `cnt ? sum / cnt : arr[i]`
fallback). -/
def smooth (arr : List ℚ) : List ℚ :=
  (List.range arr.length).map (fun i =>
    let nb := neighborVals arr i
    if nb.length = 0 then arr.getD i 0 else nb.sum / (nb.length : ℚ))

/-- `seasonSm.map((v, i) => Math.min(v, festSm[i] ?? 0))`: the coordination
index, a pointwise minimum with an out-of-range default of `0`. -/
def coordIdx (a b : List ℚ) : List ℚ :=
  a.enum.map (fun p => min p.2 (b.getD p.1 0))

/-- The object returned by the `coordinationSeries` memo. -/
structure CoordinationSeries where
  labels : List Int
  seasonVals : List ℚ
  festVals : List ℚ
  coordIndex : List ℚ
deriving DecidableEq, Repr

/-- The pre-smoothing seasonal series `seasonVals` of the deriver. -/
def preSmoothSeasonVals (f : Forecast) : List ℚ :=
  (weekStarts f.forecast_start f.forecast_end).map
    (seasonValAt (f.seasonal_chart.getD []))

/-- The pre-smoothing festival series
`festVals = festValsRaw.map(v => Math.max(0, Math.min(100, v)))`. -/
def preSmoothFestVals (f : Forecast) : List ℚ :=
  ((weekStarts f.forecast_start f.forecast_end).map
    (festRawAt (f.festival_chart.getD []))).map clamp100

/-- The `coordinationSeries` memo body for a non-null forecast:
`if (!(start < end)) return null`, else the weekly buckets, the two
clamped series smoothed with window 3, and the coordination index. -/
def coordinationSeries (f : Forecast) : Option CoordinationSeries :=
  if f.forecast_start < f.forecast_end then
    some { labels := weekStarts f.forecast_start f.forecast_end
           seasonVals := smooth (preSmoothSeasonVals f)
           festVals := smooth (preSmoothFestVals f)
           coordIndex := coordIdx (smooth (preSmoothSeasonVals f))
                                  (smooth (preSmoothFestVals f)) }
  else none

/-- The concrete forecast of claim C3: window 2025-01-01 .. 2025-01-22
(epoch ms, as `new Date('2025-01-01').getTime()` parses date-only ISO
strings at UTC midnight), one season interval 2025-01-08 .. 2025-01-14
with `demand_surge = 80`, and no festivals. -/
def c3Forecast : Forecast :=
  { forecast_start := 1735689600000
    forecast_end := 1737504000000
    seasonal_chart := some [{ season := "Winter", start := 1736294400000,
                              stop := 1736812800000, surge := 80 }]
    festival_chart := some []
    suggestions := none }

/-- C3: on the window 2025-01-01 .. 2025-01-22 with the single season
interval 2025-01-08 .. 2025-01-14 (`demand_surge = 80`) and no festivals,
the deriver's buckets start on Jan 1, Jan 8, Jan 15, Jan 22, and the
pre-smoothing seasonal series is 80 on the bucket of Jan 8 (the week
containing the interval) and 0 on every other bucket. -/
theorem c3_pre_smoothing_seasonal_value :
    weekStarts c3Forecast.forecast_start c3Forecast.forecast_end
      = [1735689600000, 1736294400000, 1736899200000, 1737504000000] ∧
    preSmoothSeasonVals c3Forecast = [0, 80, 0, 0] := by
  decide

/-! ### Spec-side formulations for the weekly deriver (claim C1)

The following definitions restate the algorithm in the spec's words, to be
compared with the source-derived definitions above: the seasonal value as
a maximum over the overlapping season intervals, the festival value as a
clamped sum over the festivals falling in the week, and the smoothing as a
centered moving average of window 3 (a mean over the length-≤3 slice of
the series around each index). -/

/-- Spec: "the seasonal value is the maximum demand-surge of any season
interval overlapping that week", the week being the 7-day span starting at
`w`, "each value clamped to [0,100]" (maximum of the empty collection
taken as 0, per the all-zero edge case). -/
def spec_seasonValue (seasons : List SeasonRow) (w : Int) : ℚ :=
  clamp100 (((seasons.filter
      (fun s => decide (w ≤ s.stop ∧ s.start < w + msPerWeek))).map
    SeasonRow.surge).foldr max 0)

/-- Spec: "the festival value is the sum of demand-increase of any
festival events falling in that week, clamped to 100" (and to 0 below). -/
def spec_festivalValue (festivals : List FestivalRow) (w : Int) : ℚ :=
  clamp100 (((festivals.filter
      (fun f => decide (w ≤ f.date ∧ f.date < w + msPerWeek))).map
    FestivalRow.inc).sum)

/-- Spec: "smoothed with a centered moving average of window 3": each
output entry is the mean of the slice of the series from index `i-1`
through `i+1`, truncated at the ends. -/
def spec_movingAvg3 (arr : List ℚ) : List ℚ :=
  (List.range arr.length).map (fun i =>
    let nb := (arr.drop (i - 1)).take (i + 1 - (i - 1) + 1)
    nb.sum / (nb.length : ℚ))

theorem foldr_max_nonneg (l : List ℚ) : 0 ≤ l.foldr max 0 := by
  induction l with
  | nil => exact le_refl 0
  | cons x l ih => exact le_trans ih (le_max_right x _)

/-- An accumulator-style `foldl` taking a running maximum over the
elements satisfying `P` equals the maximum of the filtered list (for a
nonnegative starting accumulator). -/
theorem foldl_max_filter {α : Type} (P : α → Prop) [DecidablePred P] (v : α → ℚ) :
    ∀ (l : List α) (a : ℚ), 0 ≤ a →
      l.foldl (fun m x => if P x then max m (v x) else m) a
        = max a (((l.filter (fun x => decide (P x))).map v).foldr max 0)
  | [], a, ha => by simpa using (max_eq_left ha).symm
  | x :: l, a, ha => by
      by_cases hx : P x
      · rw [List.foldl_cons, if_pos hx,
          List.filter_cons_of_pos (by simpa using hx), List.map_cons, List.foldr_cons,
          foldl_max_filter P v l (max a (v x)) (le_trans ha (le_max_left _ _)),
          max_assoc]
      · rw [List.foldl_cons, if_neg hx,
          List.filter_cons_of_neg (by simpa using hx),
          foldl_max_filter P v l a ha]

/-- An accumulator-style `foldl` summing the elements satisfying `P`
equals the sum of the filtered list. -/
theorem foldl_add_filter {α : Type} (P : α → Prop) [DecidablePred P] (v : α → ℚ) :
    ∀ (l : List α) (a : ℚ),
      l.foldl (fun acc x => if P x then acc + v x else acc) a
        = a + ((l.filter (fun x => decide (P x))).map v).sum
  | [], a => by simp
  | x :: l, a => by
      by_cases hx : P x
      · rw [List.foldl_cons, if_pos hx,
          List.filter_cons_of_pos (by simpa using hx), List.map_cons, List.sum_cons,
          foldl_add_filter P v l (a + v x), add_assoc]
      · rw [List.foldl_cons, if_neg hx,
          List.filter_cons_of_neg (by simpa using hx),
          foldl_add_filter P v l a]

/-- The source's per-bucket seasonal fold computes the spec's clamped
maximum over the overlapping season intervals. -/
theorem seasonValAt_eq_spec (seasons : List SeasonRow) (w : Int) :
    seasonValAt seasons w = spec_seasonValue seasons w := by
  rw [seasonValAt,
    foldl_max_filter (fun s => ¬(s.stop < w ∨ w + msPerWeek - 1 < s.start))
      SeasonRow.surge seasons 0 le_rfl,
    max_eq_right (foldr_max_nonneg _), spec_seasonValue]
  have hfilter :
      seasons.filter (fun s => decide ¬(s.stop < w ∨ w + msPerWeek - 1 < s.start))
        = seasons.filter (fun s => decide (w ≤ s.stop ∧ s.start < w + msPerWeek)) := by
    refine List.filter_congr (fun s _ => ?_)
    rw [decide_eq_decide]
    omega
  rw [hfilter]

/-- The source's per-bucket festival fold, clamped, computes the spec's
clamped sum over the festivals whose date falls in the week. -/
theorem festRawAt_clamped_eq_spec (festivals : List FestivalRow) (w : Int) :
    clamp100 (festRawAt festivals w) = spec_festivalValue festivals w := by
  rw [festRawAt,
    foldl_add_filter (fun f => w ≤ f.date ∧ f.date ≤ w + msPerWeek - 1)
      FestivalRow.inc festivals 0,
    zero_add, spec_festivalValue]
  have hfilter :
      festivals.filter (fun f => decide (w ≤ f.date ∧ f.date ≤ w + msPerWeek - 1))
        = festivals.filter (fun f => decide (w ≤ f.date ∧ f.date < w + msPerWeek)) := by
    refine List.filter_congr (fun f _ => ?_)
    rw [decide_eq_decide]
    omega
  rw [hfilter]

/-- Peeling one element off a `take` of a `drop`: used to line the code's
unrolled neighbor loop up with the spec's slice. -/
theorem take_drop_peel (arr : List ℚ) (n c : Nat) (h : n < arr.length) (hc : c ≠ 0) :
    (arr.drop n).take c = arr.getD n 0 :: (arr.drop (n + 1)).take (c - 1) := by
  obtain ⟨d, rfl⟩ : ∃ d, c = d + 1 := ⟨c - 1, by omega⟩
  rw [List.drop_eq_getElem_cons h, List.take_succ_cons, List.getD_eq_getElem _ _ h,
    Nat.add_sub_cancel]

/-- A `take` starting past the end of the list is empty. -/
theorem take_drop_past (arr : List ℚ) (n c : Nat) (h : arr.length ≤ n) :
    (arr.drop n).take c = [] := by
  rw [List.drop_eq_nil_of_le h, List.take_nil]

/-- The in-range neighbor values collected by the code's `j`-loop are the
spec's centered slice of the series. -/
theorem neighborVals_eq_slice (arr : List ℚ) (i : Nat) (h : i < arr.length) :
    neighborVals arr i = (arr.drop (i - 1)).take (i + 1 - (i - 1) + 1) := by
  rcases i with _ | k
  · -- i = 0: the j = -1 iteration is skipped and the slice is `take 2`
    rw [neighborVals,
      if_neg (show ¬(0 ≤ ((0 : Nat) : Int) - 1 ∧ ((0 : Nat) : Int) - 1 < (arr.length : Int))
        by omega),
      if_pos (show 0 ≤ ((0 : Nat) : Int) ∧ ((0 : Nat) : Int) < (arr.length : Int)
        by omega),
      show (((0 : Nat) : Int)).toNat = 0 from rfl,
      show ((0 : Nat) - 1) = 0 from rfl,
      show ((0 : Nat) + 1 - 0 + 1) = 2 from rfl,
      take_drop_peel arr 0 2 h (by omega),
      show ((2 : Nat) - 1) = 1 from rfl,
      show ((0 : Nat) + 1) = 1 from rfl]
    by_cases h2 : 1 < arr.length
    · rw [if_pos (show 0 ≤ ((0 : Nat) : Int) + 1 ∧ ((0 : Nat) : Int) + 1 < (arr.length : Int)
          by omega),
        show (((0 : Nat) : Int) + 1).toNat = 1 from rfl,
        take_drop_peel arr 1 1 h2 (by omega),
        show ((1 : Nat) - 1) = 0 from rfl, List.take_zero]
      simp
    · rw [if_neg (show ¬(0 ≤ ((0 : Nat) : Int) + 1 ∧ ((0 : Nat) : Int) + 1 < (arr.length : Int))
          by omega),
        take_drop_past arr 1 1 (by omega)]
      simp
  · -- i = k+1: the slice is `take 3` starting at k
    have hk : k < arr.length := by omega
    have hk1 : k + 1 < arr.length := h
    rw [neighborVals,
      if_pos (show 0 ≤ ((k + 1 : Nat) : Int) - 1 ∧ ((k + 1 : Nat) : Int) - 1 < (arr.length : Int)
        by omega),
      if_pos (show 0 ≤ ((k + 1 : Nat) : Int) ∧ ((k + 1 : Nat) : Int) < (arr.length : Int)
        by omega),
      show (((k + 1 : Nat) : Int) - 1).toNat = k by omega,
      show (((k + 1 : Nat) : Int)).toNat = k + 1 by omega,
      show (k + 1 - 1) = k from rfl,
      show (k + 1 + 1 - k + 1) = 3 by omega,
      take_drop_peel arr k 3 hk (by omega),
      show ((3 : Nat) - 1) = 2 from rfl,
      take_drop_peel arr (k + 1) 2 hk1 (by omega),
      show ((2 : Nat) - 1) = 1 from rfl,
      show (k + 1 + 1) = k + 2 from rfl]
    by_cases h2 : k + 2 < arr.length
    · rw [if_pos (show 0 ≤ ((k + 1 : Nat) : Int) + 1 ∧ ((k + 1 : Nat) : Int) + 1 < (arr.length : Int)
          by omega),
        show (((k + 1 : Nat) : Int) + 1).toNat = k + 2 by omega,
        take_drop_peel arr (k + 2) 1 h2 (by omega),
        show ((1 : Nat) - 1) = 0 from rfl, List.take_zero]
      simp
    · rw [if_neg (show ¬(0 ≤ ((k + 1 : Nat) : Int) + 1 ∧ ((k + 1 : Nat) : Int) + 1 < (arr.length : Int))
          by omega),
        take_drop_past arr (k + 2) 1 (by omega)]
      simp

/-- The slice around an in-range index is nonempty. -/
theorem slice_ne_nil (arr : List ℚ) (i : Nat) (h : i < arr.length) :
    ((arr.drop (i - 1)).take (i + 1 - (i - 1) + 1)).length ≠ 0 := by
  rw [List.length_take, List.length_drop]
  omega

/-- The code's `smooth` (window 3) is the spec's centered moving average
of window 3. -/
theorem smooth_eq_spec (arr : List ℚ) : smooth arr = spec_movingAvg3 arr := by
  rw [smooth, spec_movingAvg3]
  refine List.map_congr_left (fun i hi => ?_)
  have h : i < arr.length := List.mem_range.mp hi
  simp only [neighborVals_eq_slice arr i h]
  rw [if_neg (slice_ne_nil arr i h)]

/-! ### The timeline chart section and the component-level helpers -/

/-- The object returned by the `timelineData` memo (its date fields; the
raw season and festival rows are the chart inputs above). `Math.min` and
`Math.max` over the spread arrays are folds; `forecast_start` (resp.
`forecast_end`) is itself among the arguments, so folding from it yields
the same extremum. `Array.from(new Set(names))` keeps first occurrences,
i.e. `List.eraseDups`. -/
structure TimelineData where
  seasonNames : List String
  yLabels : List String
  minDate : Int
  maxDate : Int
deriving DecidableEq, Repr

/-- The `timelineData` memo body for a non-null forecast. -/
def timelineData (f : Forecast) : TimelineData :=
  let seasons := f.seasonal_chart.getD []
  let festivals := f.festival_chart.getD []
  let names := (seasons.map SeasonRow.season).eraseDups
  let lows := seasons.map SeasonRow.start ++ seasons.map SeasonRow.stop
      ++ festivals.map FestivalRow.date ++ [f.forecast_start]
  let highs := seasons.map SeasonRow.stop ++ festivals.map FestivalRow.date
      ++ [f.forecast_end]
  { seasonNames := names
    yLabels := names ++ ["Festivals"]
    minDate := lows.foldl min f.forecast_start
    maxDate := highs.foldl max f.forecast_end }

/-- The `timelineData` memo including its `if (!forecast) return null` guard. -/
def timelineDataMemo : Option Forecast → Option TimelineData
  | none => none
  | some f => some (timelineData f)

/-- The `coordinationSeries` memo including its `if (!forecast) return null`
guard. -/
def coordinationSeriesMemo : Option Forecast → Option CoordinationSeries
  | none => none
  | some f => coordinationSeries f

/-- The render condition of the timeline chart card (line 774):
`{timelineData && coordinationSeries && (...)}`. -/
def timelineChartShown (f : Option Forecast) : Bool :=
  (timelineDataMemo f).isSome && (coordinationSeriesMemo f).isSome

/-- `const festivalItems = (forecast?.festival_demands?.chart || [])`
(line 522), for the non-null forecast being rendered. -/
def festivalItems (f : Forecast) : List FestivalRow := f.festival_chart.getD []

/-- The festival bar chart dataset `festivalItems.map(d => d.demand_increase)`
(line 625). -/
def festivalBarData (f : Forecast) : List ℚ := (festivalItems f).map FestivalRow.inc

/-! ### Range and membership lemmas for the smoothing step -/

/-- Every value the neighbor loop collects is an element of the series. -/
theorem neighborVals_subset (arr : List ℚ) (i : Nat) :
    ∀ x ∈ neighborVals arr i, x ∈ arr := by
  have toElem : ∀ j : Int, 0 ≤ j ∧ j < (arr.length : Int) → arr.getD j.toNat 0 ∈ arr := by
    intro j hj
    have hj2 : j.toNat < arr.length := by omega
    rw [List.getD_eq_getElem _ _ hj2]
    exact List.getElem_mem hj2
  intro x hx
  rw [neighborVals] at hx
  simp only [List.mem_append] at hx
  rcases hx with (hx | hx) | hx
  all_goals
    revert hx
    split
    next hc =>
      intro hx
      rw [List.mem_singleton] at hx
      subst hx
      exact toElem _ hc
    next hc =>
      intro hx
      exact absurd hx (List.not_mem_nil _)

theorem list_sum_le_length_mul (l : List ℚ) (hi : ℚ) (h : ∀ x ∈ l, x ≤ hi) :
    l.sum ≤ (l.length : ℚ) * hi := by
  induction l with
  | nil => simp
  | cons x l ih =>
      rw [List.sum_cons, List.length_cons]
      have h1 := h x (List.mem_cons_self x l)
      have h2 := ih (fun y hy => h y (List.mem_cons_of_mem x hy))
      have h3 : ((l.length + 1 : Nat) : ℚ) * hi = (l.length : ℚ) * hi + hi := by
        push_cast; ring
      rw [h3]
      linarith

theorem length_mul_le_list_sum (l : List ℚ) (lo : ℚ) (h : ∀ x ∈ l, lo ≤ x) :
    (l.length : ℚ) * lo ≤ l.sum := by
  induction l with
  | nil => simp
  | cons x l ih =>
      rw [List.sum_cons, List.length_cons]
      have h1 := h x (List.mem_cons_self x l)
      have h2 := ih (fun y hy => h y (List.mem_cons_of_mem x hy))
      have h3 : ((l.length + 1 : Nat) : ℚ) * lo = (l.length : ℚ) * lo + lo := by
        push_cast; ring
      rw [h3]
      linarith

/-- Smoothing keeps every value inside any interval containing the input
series: each output is either an input value or a mean of input values. -/
theorem smooth_mem_bounds (arr : List ℚ) (lo hi : ℚ)
    (h : ∀ x ∈ arr, lo ≤ x ∧ x ≤ hi) :
    ∀ y ∈ smooth arr, lo ≤ y ∧ y ≤ hi := by
  intro y hy
  rw [smooth, List.mem_map] at hy
  obtain ⟨i, him, hyeq⟩ := hy
  have hilen : i < arr.length := List.mem_range.mp him
  rw [← hyeq]
  show lo ≤ (if (neighborVals arr i).length = 0 then arr.getD i 0
      else (neighborVals arr i).sum / ((neighborVals arr i).length : ℚ)) ∧
    (if (neighborVals arr i).length = 0 then arr.getD i 0
      else (neighborVals arr i).sum / ((neighborVals arr i).length : ℚ)) ≤ hi
  by_cases h0 : (neighborVals arr i).length = 0
  · rw [if_pos h0, List.getD_eq_getElem _ _ hilen]
    exact h _ (List.getElem_mem hilen)
  · rw [if_neg h0]
    have hsub : ∀ x ∈ neighborVals arr i, lo ≤ x ∧ x ≤ hi :=
      fun x hx => h x (neighborVals_subset arr i x hx)
    have hpos : 0 < ((neighborVals arr i).length : ℚ) := by
      exact_mod_cast Nat.pos_of_ne_zero h0
    constructor
    · rw [le_div_iff₀ hpos]
      have := length_mul_le_list_sum (neighborVals arr i) lo (fun x hx => (hsub x hx).1)
      linarith [mul_comm lo ((neighborVals arr i).length : ℚ)]
    · rw [div_le_iff₀ hpos]
      have := list_sum_le_length_mul (neighborVals arr i) hi (fun x hx => (hsub x hx).2)
      linarith [mul_comm hi ((neighborVals arr i).length : ℚ)]

theorem clamp100_bounds (v : ℚ) : 0 ≤ clamp100 v ∧ clamp100 v ≤ 100 :=
  ⟨le_max_left 0 _, max_le (by norm_num) (min_le_left 100 v)⟩

/-- `coordIdx` at an in-range index is the pointwise minimum. -/
theorem coordIdx_getD (a b : List ℚ) (i : Nat) (h : i < a.length) :
    (coordIdx a b).getD i 0 = min (a.getD i 0) (b.getD i 0) := by
  have hlen : (coordIdx a b).length = a.length := by
    rw [coordIdx, List.length_map, List.enum_length]
  have h2 : i < (coordIdx a b).length := by rw [hlen]; exact h
  rw [List.getD_eq_getElem _ _ h2, List.getD_eq_getElem _ _ h]
  simp [coordIdx]

theorem coordIdx_length (a b : List ℚ) : (coordIdx a b).length = a.length := by
  rw [coordIdx, List.length_map, List.enum_length]

/-! ### Demo inputs shared by the witnesses -/

/-- A minimal forecast with a one-millisecond window and no chart data. -/
def demoForecast : Forecast :=
  { forecast_start := 0
    forecast_end := 1
    seasonal_chart := none
    festival_chart := none
    suggestions := none }

/-- The deriver's output on `demoForecast`: one bucket, all values zero. -/
def demoSeries : CoordinationSeries :=
  { labels := [0], seasonVals := [0], festVals := [0], coordIndex := [0] }

/-- A forecast whose window is zero-length. -/
def zeroWindowForecast : Forecast :=
  { forecast_start := 5
    forecast_end := 5
    seasonal_chart := none
    festival_chart := none
    suggestions := none }

theorem smooth_single (x : ℚ) : smooth [x] = [x] := by
  norm_num [smooth, neighborVals, List.range_succ]

/-- Concrete evaluation of the deriver on `demoForecast` (`Rat.mul` and
`Rat.inv` are irreducible, so the smoothing division is evaluated through
`smooth_single` rather than by `decide`). -/
theorem demo_eval : coordinationSeries demoForecast = some demoSeries := by
  have h1 : weekStarts demoForecast.forecast_start demoForecast.forecast_end = [0] := by
    decide
  have h2 : preSmoothSeasonVals demoForecast = [(0 : ℚ)] := by decide
  have h3 : preSmoothFestVals demoForecast = [(0 : ℚ)] := by decide
  have h4 : coordIdx [(0 : ℚ)] [(0 : ℚ)] = [0] := by decide
  rw [coordinationSeries,
    if_pos (by decide : demoForecast.forecast_start < demoForecast.forecast_end),
    h1, h2, h3, smooth_single, h4]
  rfl

/-! ### The claims about the weekly deriver -/

/-- C1: for a forecast window with `forecast_start < forecast_end`, the
weekly deriver produces the 7-day buckets anchored at `forecast_start`
spanning the window, the seasonal series is the clamped maximum surge of
the overlapping season intervals per bucket, the festival series is the
clamped sum of the demand increases of the festivals falling in each
bucket, and both series are smoothed with a centered moving average of
window 3. -/
theorem weekly_deriver_matches_spec (f : Forecast)
    (h : f.forecast_start < f.forecast_end) :
    ∃ r, coordinationSeries f = some r ∧
      r.labels = weekStarts f.forecast_start f.forecast_end ∧
      (∀ w : Int, w ∈ r.labels ↔
        ∃ k : Nat, w = f.forecast_start + k * msPerWeek ∧ w ≤ f.forecast_end) ∧
      r.seasonVals
        = spec_movingAvg3 (r.labels.map (spec_seasonValue (f.seasonal_chart.getD []))) ∧
      r.festVals
        = spec_movingAvg3 (r.labels.map (spec_festivalValue (f.festival_chart.getD []))) := by
  refine ⟨{ labels := weekStarts f.forecast_start f.forecast_end
            seasonVals := smooth (preSmoothSeasonVals f)
            festVals := smooth (preSmoothFestVals f)
            coordIndex := coordIdx (smooth (preSmoothSeasonVals f))
                                   (smooth (preSmoothFestVals f)) },
          by rw [coordinationSeries, if_pos h], rfl,
          fun w => mem_weekStarts (le_of_lt h), ?_, ?_⟩
  · show smooth (preSmoothSeasonVals f)
        = spec_movingAvg3 ((weekStarts f.forecast_start f.forecast_end).map
            (spec_seasonValue (f.seasonal_chart.getD [])))
    rw [smooth_eq_spec]
    congr 1
    rw [preSmoothSeasonVals]
    exact List.map_congr_left (fun w _ => seasonValAt_eq_spec _ w)
  · show smooth (preSmoothFestVals f)
        = spec_movingAvg3 ((weekStarts f.forecast_start f.forecast_end).map
            (spec_festivalValue (f.festival_chart.getD [])))
    rw [smooth_eq_spec]
    congr 1
    rw [preSmoothFestVals, List.map_map]
    exact List.map_congr_left (fun w _ => festRawAt_clamped_eq_spec _ w)

theorem weekly_deriver_matches_spec_witness :
    demoForecast.forecast_start < demoForecast.forecast_end ∧
    (∃ r, coordinationSeries demoForecast = some r ∧
      r.labels = weekStarts demoForecast.forecast_start demoForecast.forecast_end ∧
      (∀ w : Int, w ∈ r.labels ↔
        ∃ k : Nat, w = demoForecast.forecast_start + k * msPerWeek ∧
          w ≤ demoForecast.forecast_end) ∧
      r.seasonVals = spec_movingAvg3 (r.labels.map
        (spec_seasonValue (demoForecast.seasonal_chart.getD []))) ∧
      r.festVals = spec_movingAvg3 (r.labels.map
        (spec_festivalValue (demoForecast.festival_chart.getD [])))) :=
  ⟨by decide, weekly_deriver_matches_spec demoForecast (by decide)⟩

/-- C2: whenever the deriver produces output, the coordination index is
the per-bucket minimum of the smoothed seasonal and festival series. -/
theorem coordination_index_is_min (f : Forecast) (r : CoordinationSeries)
    (h : coordinationSeries f = some r) :
    r.coordIndex.length = r.seasonVals.length ∧
    ∀ i : Nat, i < r.coordIndex.length →
      r.coordIndex.getD i 0 = min (r.seasonVals.getD i 0) (r.festVals.getD i 0) := by
  rw [coordinationSeries] at h
  split at h
  · obtain rfl := Option.some.inj h
    refine ⟨coordIdx_length _ _, fun i hi => ?_⟩
    have hi2 : i < (smooth (preSmoothSeasonVals f)).length := by
      rw [← coordIdx_length (smooth (preSmoothSeasonVals f)) (smooth (preSmoothFestVals f))]
      exact hi
    exact coordIdx_getD _ _ i hi2
  · exact absurd h (by simp)

theorem coordination_index_is_min_witness :
    (coordinationSeries demoForecast = some demoSeries) ∧
    (demoSeries.coordIndex.length = demoSeries.seasonVals.length ∧
     ∀ i : Nat, i < demoSeries.coordIndex.length →
       demoSeries.coordIndex.getD i 0
         = min (demoSeries.seasonVals.getD i 0) (demoSeries.festVals.getD i 0)) :=
  ⟨demo_eval, coordination_index_is_min demoForecast demoSeries demo_eval⟩

/-- C4: a zero-length window (`forecast_start = forecast_end`) makes the
deriver return `null`, and the timeline chart section is then omitted
(its render condition is false). -/
theorem zero_window_disables_derivation (f : Forecast)
    (h : f.forecast_start = f.forecast_end) :
    coordinationSeriesMemo (some f) = none ∧ timelineChartShown (some f) = false := by
  have hn : ¬ f.forecast_start < f.forecast_end := by omega
  have hcoord : coordinationSeriesMemo (some f) = none := by
    show coordinationSeries f = none
    rw [coordinationSeries, if_neg hn]
  refine ⟨hcoord, ?_⟩
  rw [timelineChartShown, hcoord]
  simp

theorem zero_window_disables_derivation_witness :
    zeroWindowForecast.forecast_start = zeroWindowForecast.forecast_end ∧
    (coordinationSeriesMemo (some zeroWindowForecast) = none ∧
     timelineChartShown (some zeroWindowForecast) = false) :=
  ⟨by decide, zero_window_disables_derivation zeroWindowForecast (by decide)⟩

/-! ### Missing or empty chart data (claim C5) -/

theorem festRawAt_nil (w : Int) : festRawAt [] w = 0 := rfl

theorem clamp100_zero : clamp100 0 = 0 := by
  rw [clamp100]
  norm_num

/-- Smoothing an all-zero series yields an all-zero series. -/
theorem smooth_all_zero (arr : List ℚ) (h : ∀ x ∈ arr, x = 0) :
    ∀ y ∈ smooth arr, y = 0 := by
  intro y hy
  have hb := smooth_mem_bounds arr 0 0
    (fun x hx => by rw [h x hx]; exact ⟨le_refl 0, le_refl 0⟩) y hy
  linarith [hb.1, hb.2]

/-- C5: a missing (or malformed, hence `none`) or empty `festival_demands`
or `seasonal_demands` chart is treated as the empty list: the festival
items and bar dataset are empty, the corresponding derived weekly series
is all-zero, and the deriver still produces output for a nonempty window
(no error surfaces for partial data). -/
theorem partial_data_treated_as_empty (f : Forecast) :
    (f.festival_chart = none ∨ f.festival_chart = some [] →
      festivalItems f = [] ∧ festivalBarData f = [] ∧
      ∀ r ∈ coordinationSeries f, ∀ v ∈ r.festVals, v = 0) ∧
    (f.seasonal_chart = none ∨ f.seasonal_chart = some [] →
      ∀ r ∈ coordinationSeries f, ∀ v ∈ r.seasonVals, v = 0) ∧
    (f.forecast_start < f.forecast_end → (coordinationSeries f).isSome = true) := by
  refine ⟨?_, ?_, ?_⟩
  · intro hc
    have hitems : festivalItems f = [] := by
      show f.festival_chart.getD [] = []
      rcases hc with hc | hc <;> rw [hc] <;> rfl
    refine ⟨hitems, ?_, ?_⟩
    · show (festivalItems f).map FestivalRow.inc = []
      rw [hitems]
      rfl
    · intro r hr v hv
      have heq := Option.mem_def.mp hr
      rw [coordinationSeries] at heq
      split at heq
      · obtain rfl := Option.some.inj heq
        refine smooth_all_zero _ ?_ v hv
        intro x hx
        rw [preSmoothFestVals, List.mem_map] at hx
        obtain ⟨q, hq, rfl⟩ := hx
        rw [List.mem_map] at hq
        obtain ⟨w, hw, rfl⟩ := hq
        have hnil : f.festival_chart.getD [] = [] := hitems
        rw [hnil, festRawAt_nil, clamp100_zero]
      · exact absurd heq (by simp)
  · intro hc r hr v hv
    have heq := Option.mem_def.mp hr
    rw [coordinationSeries] at heq
    split at heq
    · obtain rfl := Option.some.inj heq
      refine smooth_all_zero _ ?_ v hv
      intro x hx
      rw [preSmoothSeasonVals, List.mem_map] at hx
      obtain ⟨w, hw, rfl⟩ := hx
      have hnil : f.seasonal_chart.getD [] = [] := by
        rcases hc with hc | hc <;> rw [hc] <;> rfl
      rw [hnil]
      show clamp100 _ = 0
      rw [List.foldl_nil, clamp100_zero]
    · exact absurd heq (by simp)
  · intro hlt
    rw [coordinationSeries, if_pos hlt]
    rfl

theorem partial_data_treated_as_empty_witness :
    (demoForecast.festival_chart = none ∨ demoForecast.festival_chart = some []) ∧
    (festivalItems demoForecast = [] ∧ festivalBarData demoForecast = [] ∧
      ∀ r ∈ coordinationSeries demoForecast, ∀ v ∈ r.festVals, v = 0) ∧
    (∀ r ∈ coordinationSeries demoForecast, ∀ v ∈ r.seasonVals, v = 0) :=
  ⟨Or.inl rfl, (partial_data_treated_as_empty demoForecast).1 (Or.inl rfl),
    (partial_data_treated_as_empty demoForecast).2.1 (Or.inl rfl)⟩

/-- C8: whenever the deriver produces output, every smoothed seasonal and
festival value lies in `[0, 100]`: smoothing never leaves the clamped
range, so the chart's fixed y-axis maximum of 100 never truncates a
point. -/
theorem smoothed_series_within_clamp (f : Forecast) (r : CoordinationSeries)
    (h : coordinationSeries f = some r) :
    (∀ v ∈ r.seasonVals, 0 ≤ v ∧ v ≤ 100) ∧
    (∀ v ∈ r.festVals, 0 ≤ v ∧ v ≤ 100) := by
  rw [coordinationSeries] at h
  split at h
  · obtain rfl := Option.some.inj h
    constructor
    · show ∀ v ∈ smooth (preSmoothSeasonVals f), 0 ≤ v ∧ v ≤ 100
      refine smooth_mem_bounds _ 0 100 ?_
      intro x hx
      rw [preSmoothSeasonVals, List.mem_map] at hx
      obtain ⟨w, hw, rfl⟩ := hx
      exact clamp100_bounds _
    · show ∀ v ∈ smooth (preSmoothFestVals f), 0 ≤ v ∧ v ≤ 100
      refine smooth_mem_bounds _ 0 100 ?_
      intro x hx
      rw [preSmoothFestVals, List.mem_map] at hx
      obtain ⟨q, hq, rfl⟩ := hx
      exact clamp100_bounds _
  · exact absurd h (by simp)

theorem smoothed_series_within_clamp_witness :
    (coordinationSeries demoForecast = some demoSeries) ∧
    ((∀ v ∈ demoSeries.seasonVals, 0 ≤ v ∧ v ≤ 100) ∧
     (∀ v ∈ demoSeries.festVals, 0 ≤ v ∧ v ≤ 100)) :=
  ⟨demo_eval, smoothed_series_within_clamp demoForecast demoSeries demo_eval⟩

/-! ### Suggestions truncation (claim C9) -/

/-- `SuggestionPanel` (lines 67-79):
`Array.isArray(suggestions) ? suggestions.slice(0, 4) : []`. -/
def suggestionPanelItems : Option (List String) → List String
  | some l => l.take 4
  | none => []

/-- The panel is rendered with `suggestions={forecast.suggestions || []}`
(line 906). -/
def renderedSuggestions (f : Forecast) : List String :=
  suggestionPanelItems (some (f.suggestions.getD []))

/-- `downloadEntireForecastPDF` (line 387):
`Array.isArray(forecast.suggestions) ? forecast.suggestions.slice(0, 4) : []`. -/
def pdfSuggestionItems (f : Forecast) : List String :=
  match f.suggestions with
  | some l => l.take 4
  | none => []

/-- C9: both the suggestions panel and the exported PDF show exactly the
first 4 elements of `forecast.suggestions` (fewer when fewer exist), so at
most 4 suggestions are ever shown. -/
theorem suggestions_truncated_to_four (f : Forecast) :
    renderedSuggestions f = (f.suggestions.getD []).take 4 ∧
    pdfSuggestionItems f = (f.suggestions.getD []).take 4 ∧
    (renderedSuggestions f).length ≤ 4 ∧
    (pdfSuggestionItems f).length ≤ 4 := by
  have hpdf : pdfSuggestionItems f = (f.suggestions.getD []).take 4 := by
    cases hs : f.suggestions <;> simp [pdfSuggestionItems, hs]
  have hr : renderedSuggestions f = (f.suggestions.getD []).take 4 := rfl
  refine ⟨hr, hpdf, ?_, ?_⟩
  · rw [hr, List.length_take]
    omega
  · rw [hpdf, List.length_take]
    omega

/-! ### The forecast request race (claim C10) -/

/-- The fields of the `/api/demand/forecast` response JSON that
`handleForecast` reads. -/
structure ForecastApiResult where
  success : Bool
  forecast : Option Forecast
  error : Option String
deriving DecidableEq, Repr

/-- The page state the response handler writes. -/
structure PageState where
  forecast : Option Forecast
  error : Option String
deriving DecidableEq, Repr

/-- The state update `handleForecast` performs when a response arrives
(lines 424-442): `if (result.success) { setForecast(result.forecast); ... }
else setError(result.error || 'Unknown error')`. No request identifier,
sequence number, or cancellation token is consulted, so the update is
applied whichever request the response answers. -/
def applyForecastResponse (st : PageState) (r : ForecastApiResult) : PageState :=
  if r.success then { st with forecast := r.forecast }
  else { st with error := some (r.error.getD "Unknown error") }

/-- The browser event loop runs the response continuations one by one in
arrival order. -/
def runResponses (st : PageState) (arrivals : List ForecastApiResult) : PageState :=
  arrivals.foldl applyForecastResponse st

/-- C10: two successful forecast responses applied in either arrival order
leave the forecast of whichever response arrived last. In particular, when
a superseded request's response arrives after the newer request's, it
overwrites the newer forecast: last response wins, with no sequencing
guarantee. -/
theorem forecast_race_last_response_wins (st : PageState)
    (r1 r2 : ForecastApiResult) (h1 : r1.success = true) (h2 : r2.success = true) :
    (runResponses st [r1, r2]).forecast = r2.forecast ∧
    (runResponses st [r2, r1]).forecast = r1.forecast := by
  constructor <;> simp [runResponses, applyForecastResponse, h1, h2]

/-- The superseded request's payload for the race witness. -/
def staleResponse : ForecastApiResult :=
  { success := true, forecast := some demoForecast, error := none }

/-- The newer request's payload for the race witness. -/
def freshResponse : ForecastApiResult :=
  { success := true, forecast := some zeroWindowForecast, error := none }

/-- The page state before any response arrives. -/
def emptyPageState : PageState := { forecast := none, error := none }

theorem forecast_race_last_response_wins_witness :
    (staleResponse.success = true ∧ freshResponse.success = true) ∧
    ((runResponses emptyPageState [staleResponse, freshResponse]).forecast
        = freshResponse.forecast ∧
     (runResponses emptyPageState [freshResponse, staleResponse]).forecast
        = staleResponse.forecast) :=
  ⟨⟨rfl, rfl⟩,
    forecast_race_last_response_wins emptyPageState staleResponse freshResponse rfl rfl⟩

/-! ### The CSV exporter (claim C7)

`exportToCSV` of `src/frontend/src/utils/exportUtils.js`, modelled at the
character-list level: strings are `List Char`, so `value.replace(/"/g, '""')`
and `value.includes(...)` are character operations. Only the text building
is modelled; the blob download that follows consumes the text unchanged. -/

/-- A JS value in an export dataset row, as the cell formatter
distinguishes them: a number (emitted as its decimal rendering `text`),
`null`/`undefined`, a string, or an object/array (carried as its
`JSON.stringify` text, which the formatter produces and then handles
through the string branch). -/
inductive CellValue where
  | num (text : List Char)
  | null
  | str (s : List Char)
  | obj (json : List Char)
deriving DecidableEq, Repr

/-- `value.replace(/"/g, '""')`: every double quote is doubled. -/
def dupQuotes (s : List Char) : List Char :=
  s.flatMap (fun c => if c = '"' then ['"', '"'] else [c])

/-- The string branch of the formatter: after quote doubling, the field is
wrapped in quotes iff it contains a comma, a double quote, or a newline
(the test runs on the doubled text, as in the source). -/
def quoteField (s : List Char) : List Char :=
  if (dupQuotes s).contains ',' || (dupQuotes s).contains '"'
      || (dupQuotes s).contains '\n'
  then '"' :: (dupQuotes s ++ ['"']) else dupQuotes s

/-- The per-value cell formatter (lines 13-28): numbers pass through,
null/undefined become the empty cell, objects are stringified and then
handled as strings, strings get quote doubling and conditional quoting. -/
def csvCell : CellValue → List Char
  | .num t => t
  | .null => []
  | .str s => quoteField s
  | .obj j => quoteField j

/-- `Object.keys(data[0])`: the headers come from the first row. -/
def csvHeaders : List (List (List Char × CellValue)) → List (List Char)
  | [] => []
  | first :: _ => first.map Prod.fst

/-- One row's formatted cells, in header order; `row[header]` for a
missing key is `undefined`, i.e. `.null`. -/
def rowCells (headers : List (List Char))
    (row : List (List Char × CellValue)) : List (List Char) :=
  headers.map (fun h => csvCell ((List.lookup h row).getD CellValue.null))

/-- The CSV text `csvRows` built by `exportToCSV` for a nonempty dataset:
the comma-joined header line followed by one comma-joined line per row,
all newline-joined. For an empty dataset the function returns without
producing text (`if (!data || !data.length) return`). -/
def exportToCSV (data : List (List (List Char × CellValue))) : Option (List Char) :=
  match data with
  | [] => none
  | _ :: _ =>
    some (List.intercalate ['\n']
      (List.intercalate [','] (csvHeaders data)
        :: data.map (fun row => List.intercalate [','] (rowCells (csvHeaders data) row))))

theorem intercalate_single {α : Type} (sep x : List α) :
    List.intercalate sep [x] = x := by
  simp [List.intercalate]

theorem intercalate_cons₂ {α : Type} (sep x y : List α) (zs : List (List α)) :
    List.intercalate sep (x :: y :: zs) = x ++ sep ++ List.intercalate sep (y :: zs) := by
  simp [List.intercalate]

/-- Every part of an intercalation appears contiguously in the result. -/
theorem mem_intercalate_split {α : Type} (sep : List α) :
    ∀ (parts : List (List α)) (x : List α), x ∈ parts →
      ∃ pre post, List.intercalate sep parts = pre ++ (x ++ post)
  | [], x, hx => absurd hx (List.not_mem_nil x)
  | p :: ps, x, hx => by
      rcases List.mem_cons.mp hx with rfl | hx2
      · cases ps with
        | nil => exact ⟨[], [], by simp [intercalate_single]⟩
        | cons q qs =>
            refine ⟨[], sep ++ List.intercalate sep (q :: qs), ?_⟩
            rw [intercalate_cons₂]
            simp [List.append_assoc]
      · have hne : ps ≠ [] := List.ne_nil_of_mem hx2
        obtain ⟨q, qs, rfl⟩ := List.exists_cons_of_ne_nil hne
        obtain ⟨pre, post, hp⟩ := mem_intercalate_split sep (q :: qs) x hx2
        refine ⟨p ++ sep ++ pre, post, ?_⟩
        rw [intercalate_cons₂, hp]
        simp [List.append_assoc]

/-- Doubling quotes neither adds nor removes which characters occur. -/
theorem mem_dupQuotes (c : Char) (s : List Char) : c ∈ dupQuotes s ↔ c ∈ s := by
  rw [dupQuotes, List.mem_flatMap]
  constructor
  · rintro ⟨a, ha, hc⟩
    by_cases h : a = '"'
    · rw [if_pos h] at hc
      have hcq : c = '"' := by
        rcases List.mem_cons.mp hc with h1 | h1
        · exact h1
        · exact List.mem_singleton.mp h1
      rw [hcq, ← h]
      exact ha
    · rw [if_neg h, List.mem_singleton] at hc
      rw [hc]
      exact ha
  · intro hc
    refine ⟨c, hc, ?_⟩
    by_cases h : c = '"'
    · rw [if_pos h, h]
      exact List.mem_cons_self _ _
    · rw [if_neg h]
      exact List.mem_singleton.mpr rfl

/-- A field containing a comma, quote, or newline is emitted quoted, with
internal quotes doubled. -/
theorem quoteField_special (s : List Char)
    (hc : ',' ∈ s ∨ '"' ∈ s ∨ '\n' ∈ s) :
    quoteField s = '"' :: (dupQuotes s ++ ['"']) := by
  rw [quoteField]
  have hcond : ((dupQuotes s).contains ',' || (dupQuotes s).contains '"'
      || (dupQuotes s).contains '\n') = true := by
    simp only [List.contains, List.elem_eq_mem, Bool.or_eq_true, decide_eq_true_eq,
      mem_dupQuotes]
    tauto
  simp only [hcond, if_true]

/-- C7: in a nonempty dataset, a string value that contains an embedded
comma (or a double quote or a newline) is formatted as a quoted field with
internal quotes doubled, that field is one of its row's cells, and it
appears contiguously in the produced CSV text. -/
theorem csv_embedded_comma_quoted
    (data : List (List (List Char × CellValue)))
    (row : List (List Char × CellValue)) (h : List Char) (s : List Char)
    (hrow : row ∈ data) (hhead : h ∈ csvHeaders data)
    (hval : List.lookup h row = some (CellValue.str s))
    (hspecial : ',' ∈ s ∨ '"' ∈ s ∨ '\n' ∈ s) :
    csvCell (CellValue.str s) = '"' :: (dupQuotes s ++ ['"']) ∧
    ('"' :: (dupQuotes s ++ ['"'])) ∈ rowCells (csvHeaders data) row ∧
    ∃ out pre post, exportToCSV data = some out ∧
      out = pre ++ (('"' :: (dupQuotes s ++ ['"'])) ++ post) := by
  have hcell : csvCell (CellValue.str s) = '"' :: (dupQuotes s ++ ['"']) :=
    quoteField_special s hspecial
  have hmem : ('"' :: (dupQuotes s ++ ['"'])) ∈ rowCells (csvHeaders data) row := by
    rw [rowCells, ← hcell]
    refine List.mem_map.mpr ⟨h, hhead, ?_⟩
    rw [hval]
    rfl
  refine ⟨hcell, hmem, ?_⟩
  obtain ⟨first, rest, rfl⟩ := List.exists_cons_of_ne_nil (List.ne_nil_of_mem hrow)
  have hline : List.intercalate [','] (rowCells (csvHeaders (first :: rest)) row)
      ∈ List.intercalate [','] (csvHeaders (first :: rest))
        :: (first :: rest).map (fun r =>
          List.intercalate [','] (rowCells (csvHeaders (first :: rest)) r)) :=
    List.mem_cons_of_mem _ (List.mem_map_of_mem _ hrow)
  obtain ⟨p1, p2, hsplit1⟩ := mem_intercalate_split [','] _ _ hmem
  obtain ⟨q1, q2, hsplit2⟩ := mem_intercalate_split ['\n'] _ _ hline
  refine ⟨_, q1 ++ p1, p2 ++ q2, rfl, ?_⟩
  rw [hsplit2, hsplit1]
  simp [List.append_assoc]

/-- The concrete dataset for the CSV witness: one row, one column `a`,
value `x,y`. -/
def demoCsvData : List (List (List Char × CellValue)) :=
  [[(['a'], CellValue.str ['x', ',', 'y'])]]

theorem csv_embedded_comma_quoted_witness :
    ([(['a'], CellValue.str ['x', ',', 'y'])] ∈ demoCsvData ∧
     ['a'] ∈ csvHeaders demoCsvData ∧
     List.lookup ['a'] [(['a'], CellValue.str ['x', ',', 'y'])]
        = some (CellValue.str ['x', ',', 'y']) ∧
     (',' ∈ ['x', ',', 'y'] ∨ '"' ∈ ['x', ',', 'y'] ∨ '\n' ∈ ['x', ',', 'y'])) ∧
    (csvCell (CellValue.str ['x', ',', 'y'])
        = '"' :: (dupQuotes ['x', ',', 'y'] ++ ['"']) ∧
     ('"' :: (dupQuotes ['x', ',', 'y'] ++ ['"']))
        ∈ rowCells (csvHeaders demoCsvData) [(['a'], CellValue.str ['x', ',', 'y'])] ∧
     ∃ out pre post, exportToCSV demoCsvData = some out ∧
       out = pre ++ (('"' :: (dupQuotes ['x', ',', 'y'] ++ ['"'])) ++ post)) :=
  ⟨⟨by decide, by decide, by decide, by decide⟩,
    csv_embedded_comma_quoted demoCsvData
      [(['a'], CellValue.str ['x', ',', 'y'])] ['a'] ['x', ',', 'y']
      (by decide) (by decide) (by decide) (by decide)⟩

/-! ### Business-profile persistence (claim C6)

`BusinessInfoContext.jsx`: `saveBusinessInfo(info)` runs
`localStorage.setItem('businessInfo', JSON.stringify(info))`, and the
provider's `useState` initializer reads
`localStorage.getItem('businessInfo')` and returns
`saved ? JSON.parse(saved) : null`. The profile the Settings form saves is
the object `{ businessType, businessScale, state, location, currentSales }`
whose five values are strings from form controls. `JSON.stringify` and
`JSON.parse` are host functions; they are modelled by `stringifyProfile`
(ECMA-262 `QuoteJSONString` escaping, keys in the form object's insertion
order) and `parseProfile` (`JSON.parse` restricted to that canonical
shape; `none` stands for the exception `JSON.parse` throws on malformed
text, or for a payload that is not such an object). -/

structure BusinessProfile where
  businessType : String
  businessScale : String
  state : String
  location : String
  currentSales : String
deriving DecidableEq, Repr

/-- Lowercase hex digit, for the `\u00XX` escapes of control characters. -/
def hexDigitChar (n : Nat) : Char :=
  if n < 10 then Char.ofNat ('0'.toNat + n) else Char.ofNat ('a'.toNat + (n - 10))

/-- ECMA-262 `QuoteJSONString` on one character: `"` and `\` get a
backslash escape, the five short control escapes are used where they
exist, any other code point below U+0020 becomes `\u00XX`, and everything
else is emitted verbatim. -/
def quoteChar (c : Char) : List Char :=
  if c = '"' then ['\\', '"']
  else if c = '\\' then ['\\', '\\']
  else if c = Char.ofNat 8 then ['\\', 'b']
  else if c = Char.ofNat 9 then ['\\', 't']
  else if c = Char.ofNat 10 then ['\\', 'n']
  else if c = Char.ofNat 12 then ['\\', 'f']
  else if c = Char.ofNat 13 then ['\\', 'r']
  else if c.toNat < 32 then
    ['\\', 'u', '0', '0', hexDigitChar (c.toNat / 16), hexDigitChar (c.toNat % 16)]
  else [c]

/-- A JSON string literal: opening quote, escaped body, closing quote. -/
def quoteString (s : String) : List Char :=
  '"' :: (s.data.flatMap quoteChar ++ ['"'])

/-- `JSON.stringify` of the profile object. -/
def stringifyProfile (p : BusinessProfile) : String :=
  String.mk (List.flatten
    [['{'], quoteString "businessType", [':'], quoteString p.businessType,
     [','], quoteString "businessScale", [':'], quoteString p.businessScale,
     [','], quoteString "state", [':'], quoteString p.state,
     [','], quoteString "location", [':'], quoteString p.location,
     [','], quoteString "currentSales", [':'], quoteString p.currentSales,
     ['}']])

/-- The numeric value of one hex digit (`JSON.parse` accepts both cases). -/
def hexCharVal (c : Char) : Option Nat :=
  if '0' ≤ c ∧ c ≤ '9' then some (c.toNat - '0'.toNat)
  else if 'a' ≤ c ∧ c ≤ 'f' then some (c.toNat - 'a'.toNat + 10)
  else if 'A' ≤ c ∧ c ≤ 'F' then some (c.toNat - 'A'.toNat + 10)
  else none

/-- The code unit denoted by a `\uXXXX` escape. -/
def fourHex (a b c d : Char) : Option Nat :=
  match hexCharVal a, hexCharVal b, hexCharVal c, hexCharVal d with
  | some va, some vb, some vc, some vd => some (((va * 16 + vb) * 16 + vc) * 16 + vd)
  | _, _, _, _ => none

/-- One escape sequence, after its backslash: the denoted character and
the remaining input; `none` on an invalid escape (where `JSON.parse`
throws). -/
def unescapeSeq : List Char → Option (Char × List Char)
  | [] => none
  | e :: rest =>
      if e = '"' then some ('"', rest)
      else if e = '\\' then some ('\\', rest)
      else if e = '/' then some ('/', rest)
      else if e = 'b' then some (Char.ofNat 8, rest)
      else if e = 't' then some (Char.ofNat 9, rest)
      else if e = 'n' then some (Char.ofNat 10, rest)
      else if e = 'f' then some (Char.ofNat 12, rest)
      else if e = 'r' then some (Char.ofNat 13, rest)
      else if e = 'u' then
        match rest with
        | a :: b :: c2 :: d :: rest3 =>
            match fourHex a b c2 d with
            | some n => some (Char.ofNat n, rest3)
            | none => none
        | _ => none
      else none

/-- A successful escape consumes at least one character. -/
theorem unescapeSeq_length : ∀ (l : List Char) (p : Char × List Char),
    unescapeSeq l = some p → p.2.length < l.length := by
  intro l p h
  rw [unescapeSeq.eq_def] at h
  split at h
  · exact absurd h (by simp)
  · split_ifs at h
    all_goals try (obtain rfl := Option.some.inj h; simp)
    · split at h
      · split at h
        · obtain rfl := Option.some.inj h
          simp
          omega
        · exact absurd h (by simp)
      · exact absurd h (by simp)

/-- The body of a JSON string literal after its opening quote: the decoded
characters plus the input remaining after the closing quote, `none` where
`JSON.parse` would throw (bad escape, unescaped control character,
unterminated literal). -/
def stringBody (l : List Char) : Option (List Char × List Char) :=
  match l with
  | [] => none
  | c :: rest =>
      if c = '"' then some ([], rest)
      else if c = '\\' then
        match h : unescapeSeq rest with
        | some p => (stringBody p.2).map (fun q => (p.1 :: q.1, q.2))
        | none => none
      else if c.toNat < 32 then none
      else (stringBody rest).map (fun q => (c :: q.1, q.2))
termination_by l.length
decreasing_by
  · have := unescapeSeq_length rest p h
    simp
    omega
  · simp

/-- A JSON string literal: an opening quote followed by a body. -/
def parseJsonString : List Char → Option (List Char × List Char)
  | c :: rest => if c = '"' then stringBody rest else none
  | [] => none

/-- Consume one expected character. -/
def expectChar (c : Char) : List Char → Option (List Char)
  | x :: rest => if x = c then some rest else none
  | [] => none

/-- One `"key":"value"` member whose key must be `key`; returns the decoded
value. -/
def parseMember (key : String) (input : List Char) : Option (String × List Char) :=
  (parseJsonString input).bind fun k1 =>
  if k1.1 = key.data then
    (expectChar ':' k1.2).bind fun r2 =>
    (parseJsonString r2).bind fun v1 =>
    some (String.mk v1.1, v1.2)
  else none

/-- `JSON.parse` restricted to the canonical profile serialization:
`{"businessType":…,"businessScale":…,"state":…,"location":…,"currentSales":…}`
with string values and nothing trailing. -/
def parseProfile (s : String) : Option BusinessProfile :=
  (expectChar '{' s.data).bind fun r0 =>
  (parseMember "businessType" r0).bind fun p1 =>
  (expectChar ',' p1.2).bind fun r1 =>
  (parseMember "businessScale" r1).bind fun p2 =>
  (expectChar ',' p2.2).bind fun r2 =>
  (parseMember "state" r2).bind fun p3 =>
  (expectChar ',' p3.2).bind fun r3 =>
  (parseMember "location" r3).bind fun p4 =>
  (expectChar ',' p4.2).bind fun r4 =>
  (parseMember "currentSales" r4).bind fun p5 =>
  (expectChar '}' p5.2).bind fun r5 =>
  if r5 = [] then
    some { businessType := p1.1, businessScale := p2.1, state := p3.1,
           location := p4.1, currentSales := p5.1 }
  else none

/-! ### The serialization round-trip -/

theorem hexCharVal_hexDigitChar (k : Nat) (hk : k < 16) :
    hexCharVal (hexDigitChar k) = some k := by
  interval_cases k <;> decide

/-- Decoding the `\u00XX` escape of a control character recovers its code
point. -/
theorem fourHex_control (v : Nat) (hv : v < 32) :
    fourHex '0' '0' (hexDigitChar (v / 16)) (hexDigitChar (v % 16)) = some v := by
  have h0 : hexCharVal '0' = some 0 := by decide
  have h1 := hexCharVal_hexDigitChar (v / 16) (by omega)
  have h2 := hexCharVal_hexDigitChar (v % 16) (by omega)
  rw [fourHex, h0, h1, h2]
  simp only [Option.some.injEq]
  omega

/-- Unfolding one decoded escape at the head of the string body. -/
theorem stringBody_escaped (seq rest : List Char) (c : Char)
    (hu : unescapeSeq (seq ++ rest) = some (c, rest)) :
    stringBody ('\\' :: (seq ++ rest))
      = (stringBody rest).map (fun q => (c :: q.1, q.2)) := by
  rw [stringBody.eq_def]
  simp only [reduceIte, if_neg (show ¬ ('\\' : Char) = '"' by decide)]
  split
  · rename_i p hp
    rw [hu] at hp
    obtain rfl := Option.some.inj hp
    rfl
  · rename_i hp
    rw [hu] at hp
    cases hp

/-- Decoding undoes the escaping of a single character. -/
theorem stringBody_quoteChar (c : Char) (rest : List Char) :
    stringBody (quoteChar c ++ rest)
      = (stringBody rest).map (fun q => (c :: q.1, q.2)) := by
  rw [quoteChar]
  by_cases h1 : c = '"'
  · subst h1
    rw [if_pos rfl]
    exact stringBody_escaped ['"'] rest '"' rfl
  · rw [if_neg h1]
    by_cases h2 : c = '\\'
    · subst h2
      rw [if_pos rfl]
      exact stringBody_escaped ['\\'] rest '\\' rfl
    · rw [if_neg h2]
      by_cases h3 : c = Char.ofNat 8
      · subst h3
        rw [if_pos rfl]
        exact stringBody_escaped ['b'] rest (Char.ofNat 8) rfl
      · rw [if_neg h3]
        by_cases h4 : c = Char.ofNat 9
        · subst h4
          rw [if_pos rfl]
          exact stringBody_escaped ['t'] rest (Char.ofNat 9) rfl
        · rw [if_neg h4]
          by_cases h5 : c = Char.ofNat 10
          · subst h5
            rw [if_pos rfl]
            exact stringBody_escaped ['n'] rest (Char.ofNat 10) rfl
          · rw [if_neg h5]
            by_cases h6 : c = Char.ofNat 12
            · subst h6
              rw [if_pos rfl]
              exact stringBody_escaped ['f'] rest (Char.ofNat 12) rfl
            · rw [if_neg h6]
              by_cases h7 : c = Char.ofNat 13
              · subst h7
                rw [if_pos rfl]
                exact stringBody_escaped ['r'] rest (Char.ofNat 13) rfl
              · rw [if_neg h7]
                by_cases h8 : c.toNat < 32
                · rw [if_pos h8]
                  refine stringBody_escaped
                    ['u', '0', '0', hexDigitChar (c.toNat / 16),
                      hexDigitChar (c.toNat % 16)] rest c ?_
                  show (match fourHex '0' '0' (hexDigitChar (c.toNat / 16))
                        (hexDigitChar (c.toNat % 16)) with
                    | some n => some (Char.ofNat n, rest)
                    | none => none) = some (c, rest)
                  rw [fourHex_control c.toNat h8]
                  show some (Char.ofNat c.toNat, rest) = some (c, rest)
                  rw [Char.ofNat_toNat]
                · rw [if_neg h8]
                  show stringBody (c :: rest) = _
                  rw [stringBody.eq_def]
                  simp only [reduceIte, if_neg h1, if_neg h2, if_neg h8]

/-- Decoding undoes the escaping of a whole string body, stopping at the
closing quote. -/
theorem stringBody_quoted (s : List Char) (rest : List Char) :
    stringBody (s.flatMap quoteChar ++ '"' :: rest) = some (s, rest) := by
  induction s with
  | nil =>
      show stringBody ('"' :: rest) = some ([], rest)
      rw [stringBody.eq_def]
      simp
  | cons c cs ih =>
      rw [List.flatMap_cons, List.append_assoc, stringBody_quoteChar, ih]
      rfl

/-- Parsing a rendered JSON string literal recovers the original string. -/
theorem parseJsonString_quoted (s : String) (rest : List Char) :
    parseJsonString (quoteString s ++ rest) = some (s.data, rest) := by
  rw [quoteString]
  show stringBody ((s.data.flatMap quoteChar ++ ['"']) ++ rest) = some (s.data, rest)
  rw [List.append_assoc]
  exact stringBody_quoted s.data rest

theorem expectChar_cons (c : Char) (l : List Char) :
    expectChar c (c :: l) = some l := by
  simp [expectChar]

theorem string_mk_data (s : String) : String.mk s.data = s := rfl

/-- Parsing a rendered member recovers its value. -/
theorem parseMember_quoted (key val : String) (rest : List Char) :
    parseMember key (quoteString key ++ ':' :: (quoteString val ++ rest))
      = some (val, rest) := by
  rw [parseMember, parseJsonString_quoted]
  simp only [Option.some_bind, if_pos rfl]
  rw [expectChar_cons]
  simp only [Option.some_bind]
  rw [parseJsonString_quoted]
  simp only [Option.some_bind, string_mk_data, if_true]

theorem string_data_mk (l : List Char) : (String.mk l).data = l := rfl

/-- Parsing the canonical serialization of a profile restores the profile,
field for field (`JSON.parse(JSON.stringify(p))` on this shape). -/
theorem parseProfile_stringifyProfile (p : BusinessProfile) :
    parseProfile (stringifyProfile p) = some p := by
  rw [parseProfile, stringifyProfile, string_data_mk]
  simp only [List.flatten, List.append_nil, List.append_assoc, List.cons_append,
    List.nil_append, List.singleton_append]
  rw [expectChar_cons]
  simp only [Option.some_bind]
  rw [parseMember_quoted]
  simp only [Option.some_bind]
  rw [expectChar_cons]
  simp only [Option.some_bind]
  rw [parseMember_quoted]
  simp only [Option.some_bind]
  rw [expectChar_cons]
  simp only [Option.some_bind]
  rw [parseMember_quoted]
  simp only [Option.some_bind]
  rw [expectChar_cons]
  simp only [Option.some_bind]
  rw [parseMember_quoted]
  simp only [Option.some_bind]
  rw [expectChar_cons]
  simp only [Option.some_bind]
  rw [parseMember_quoted]
  simp only [Option.some_bind]
  rw [expectChar_cons]
  simp only [Option.some_bind]
  rfl

/-! ### The storage layer -/

/-- The browser's per-origin localStorage: string keys to string values. -/
def Storage := String → Option String

/-- `localStorage.setItem`. -/
def setItem (st : Storage) (k v : String) : Storage :=
  fun q => if q = k then some v else st q

/-- `saveBusinessInfo(info)` of `BusinessInfoContext`:
`setBusinessInfo(info)` keeps the object in memory and
`localStorage.setItem('businessInfo', JSON.stringify(info))` persists it. -/
def saveBusinessInfo (st : Storage) (p : BusinessProfile) : Storage :=
  setItem st "businessInfo" (stringifyProfile p)

/-- The provider's `useState` initializer:
`const saved = localStorage.getItem('businessInfo'); return saved ? JSON.parse(saved) : null`
(an absent key and the falsy empty string both give `null`). -/
def initialBusinessInfo (st : Storage) : Option BusinessProfile :=
  match st "businessInfo" with
  | none => none
  | some s => if s = "" then none else parseProfile s

/-- C6: saving a profile stores its serialization under the
`businessInfo` key, and the provider initialization of the next app start
restores the identical profile: a serialize-then-deserialize round trip
through local storage. -/
theorem profile_round_trip (st : Storage) (p : BusinessProfile) :
    saveBusinessInfo st p "businessInfo" = some (stringifyProfile p) ∧
    initialBusinessInfo (saveBusinessInfo st p) = some p := by
  have hget : saveBusinessInfo st p "businessInfo" = some (stringifyProfile p) := by
    rw [saveBusinessInfo, setItem]
    simp
  refine ⟨hget, ?_⟩
  rw [initialBusinessInfo, hget]
  have hne : ¬ stringifyProfile p = "" := by
    intro hcontra
    have hd : (stringifyProfile p).data = "".data := by rw [hcontra]
    rw [stringifyProfile, string_data_mk] at hd
    simp [List.flatten] at hd
  show (if stringifyProfile p = "" then none else parseProfile (stringifyProfile p))
      = some p
  rw [if_neg hne, parseProfile_stringifyProfile]

end SCM
